import Mathlib

/-!
Shallow embedding of the nwc-phoenixd settlement ledger (src/src/modules/db.ts)
and of the phoenixd node adapter's incoming-payment queue (src/unnamed/part_000,
class Phoenixd).  The SQLite tables are modelled as Lean lists, the SQL
statements as pure functions on a `DBState`, and a `BEGIN/COMMIT/ROLLBACK`
transaction as "return the snapshot on error".  Timestamps obtained from
`now()` are passed in explicitly as arguments.
-/

namespace NwcPhoenixd

/-- Wallet state supplied by callers on settlement (types.ts `WalletState`):
the caller always passes the complete next state. -/
structure WalletState where
  balance : Int
  channelSize : Int
  feeCredit : Int
deriving DecidableEq, Repr

/-- Invoice value as used by `db.ts` (`completeInvoice`, `getInvoiceById`):
payment hash, optional descriptions, amount, creation and expiry times,
and the serialized invoice string. -/
structure Invoice where
  payment_hash : String
  description : Option String
  description_hash : Option String
  amount : Int
  created_at : Int
  expires_at : Int
  invoice : String
deriving DecidableEq, Repr

/-- One row of the `records` table, with the column defaults of the
`CREATE TABLE` statement (`amount` has no default and may be NULL, hence
`Option Int`). -/
structure RecordRow where
  id : Nat
  pubkey : String
  is_outgoing : Bool
  is_paid : Bool
  payment_hash : String
  description : String
  description_hash : String
  preimage : String
  amount : Option Int
  fees_paid : Int
  created_at : Int
  expires_at : Int
  settled_at : Int
deriving DecidableEq, Repr

/-- One row of the `wallets` table (pubkey is UNIQUE). -/
structure WalletRow where
  pubkey : String
  balance : Int
  channel_size : Int
  fee_credit : Int
deriving DecidableEq, Repr

/-- The singleton `fees` row (id = 1). -/
structure FeesRow where
  mining_fee_paid : Int
  mining_fee_received : Int
deriving DecidableEq, Repr

/-- The whole database: `records` and `wallets` tables, the AUTOINCREMENT
counter for record ids, and the optional singleton `fees` row. -/
structure DBState where
  records : List RecordRow
  nextId : Nat
  wallets : List WalletRow
  fees : Option FeesRow
deriving DecidableEq, Repr

/-- Freshly created database (AUTOINCREMENT starts at 1). -/
def emptyDB : DBState := { records := [], nextId := 1, wallets := [], fees := none }

/-- Errors thrown by the store; `unauthorized` is the
"Invalid clientPubkey for settleInvoice" throw, `notFound` the
"Invoice not found by id" / "Payment not found by paymentHash" throws,
`walletUpdateFailed` a failure of the wallet-upsert statement, and
`datatypeMismatch` the SQLite error raised when a NULL value is used as a
LIMIT. -/
inductive DbError where
  | unauthorized
  | notFound
  | walletUpdateFailed
  | datatypeMismatch
deriving DecidableEq, Repr

/-- Row inserted by `createInvoice`: only `pubkey` and `created_at` are
given, every other column takes its schema default. -/
def newRecord (id : Nat) (clientPubkey : String) (created_at : Int) : RecordRow :=
  { id := id, pubkey := clientPubkey, is_outgoing := false, is_paid := false,
    payment_hash := "", description := "", description_hash := "", preimage := "",
    amount := none, fees_paid := 0, created_at := created_at,
    expires_at := 0, settled_at := 0 }

/-- Model of `createInvoice(clientPubkey)`: INSERT INTO records (pubkey, created_at);
returns the fresh row id. -/
def createInvoice (clientPubkey : String) (tNow : Int) (db : DBState) : Nat × DBState :=
  (db.nextId,
   { db with records := db.records ++ [newRecord db.nextId clientPubkey tNow],
             nextId := db.nextId + 1 })

/-- Model of `deleteInvoice(id)`: DELETE FROM records WHERE id = ? AND is_outgoing = 0.
Note there is no `is_paid` condition in the source. -/
def deleteInvoice (id : Nat) (db : DBState) : DBState :=
  { db with records := db.records.filter (fun r => !(r.id == id && !r.is_outgoing)) }

/-- JS `x || undefined` on a TEXT column value: the empty string is falsy. -/
def strOpt (s : String) : Option String := if s = "" then none else some s

/-- Model of `completeInvoice(id, invoice)`: UPDATE records SET payment_hash,
description, description_hash, amount, created_at, expires_at WHERE id = ?;
throws "Invoice not found by id" if the number of changed rows is not 1. -/
def completeInvoice (id : Nat) (inv : Invoice) (db : DBState) :
    DBState × Except DbError Unit :=
  let changes := (db.records.filter (fun r => r.id == id)).length
  let db1 := { db with records := db.records.map (fun r =>
    if r.id == id then
      { r with payment_hash := inv.payment_hash,
               description := inv.description.getD "",
               description_hash := inv.description_hash.getD "",
               amount := some inv.amount,
               created_at := inv.created_at,
               expires_at := inv.expires_at }
    else r) }
  if changes == 1 then (db1, .ok ()) else (db1, .error .notFound)

/-- Model of `getInvoiceById(id)`: SELECT * FROM records WHERE id = ? AND
is_outgoing = 0, converted through `recToTx` and returned together with the
owning pubkey. -/
def getInvoiceById (id : Nat) (db : DBState) : Option (Invoice × String) :=
  match db.records.find? (fun r => r.id == id && !r.is_outgoing) with
  | none => none
  | some r =>
    some ({ payment_hash := r.payment_hash,
            description := strOpt r.description,
            description_hash := strOpt r.description_hash,
            amount := r.amount.getD 0,
            created_at := r.created_at,
            expires_at := r.expires_at,
            invoice := "" }, r.pubkey)

/-- The `fees` upsert used by `addMiningFeePaid`: INSERT (1, fee, 0)
ON CONFLICT DO UPDATE SET mining_fee_paid = mining_fee_paid + fee. -/
def feesAddPaid (fee : Int) : Option FeesRow → FeesRow
  | none => { mining_fee_paid := fee, mining_fee_received := 0 }
  | some f => { f with mining_fee_paid := f.mining_fee_paid + fee }

/-- The `fees` upsert used inside `settleInvoice`: INSERT (1, 0, fee)
ON CONFLICT DO UPDATE SET mining_fee_received = mining_fee_received + fee. -/
def feesAddReceived (fee : Int) : Option FeesRow → FeesRow
  | none => { mining_fee_paid := 0, mining_fee_received := fee }
  | some f => { f with mining_fee_received := f.mining_fee_received + fee }

/-- Model of `addMiningFeePaid(fee)`: the upsert always changes exactly one row, so
the `!f.changes` throw in the source never fires. -/
def addMiningFeePaid (fee : Int) (db : DBState) : DBState :=
  { db with fees := some (feesAddPaid fee db.fees) }

/-- The received-fee accumulation statement of `settleInvoice`, as a state
transformer (always changes one row, so its `!f.changes` throw never fires). -/
def addMiningFeeReceived (fee : Int) (db : DBState) : DBState :=
  { db with fees := some (feesAddReceived fee db.fees) }

/-- Model of `getFees()`: (miningFeePaid, miningFeeReceived), both 0 when the
singleton row is absent (the JS `|| 0` is the identity on stored integers). -/
def getFees (db : DBState) : Int × Int :=
  match db.fees with
  | none => (0, 0)
  | some f => (f.mining_fee_paid, f.mining_fee_received)

/-- Model of `updateWalletState`: INSERT INTO wallets ... ON CONFLICT(pubkey) DO
UPDATE.  The upsert touches exactly one row, so the `changes !== 1` throw
in the source never fires. -/
def upsertWallet (clientPubkey : String) (ws : WalletState)
    (wallets : List WalletRow) : List WalletRow :=
  if wallets.any (fun w => w.pubkey == clientPubkey) then
    wallets.map (fun w =>
      if w.pubkey == clientPubkey then
        { w with balance := ws.balance, channel_size := ws.channelSize,
                 fee_credit := ws.feeCredit }
      else w)
  else
    wallets ++ [{ pubkey := clientPubkey, balance := ws.balance,
                  channel_size := ws.channelSize, fee_credit := ws.feeCredit }]

/-- Model of `settleInvoice(clientPubkey, id, settledAt, walletState, miningFee)`.
The source wraps the steps in BEGIN/COMMIT/ROLLBACK; the first component of
the result is the observable database afterwards (the snapshot `db` on every
rollback path), the second the returned boolean or the propagated error. -/
def settleInvoice (clientPubkey : String) (id : Nat) (settledAt : Int)
    (ws : WalletState) (miningFee : Int) (db : DBState) :
    DBState × Except DbError Bool :=
  match getInvoiceById id db with
  | none =>
    -- expectedPubkey is undefined, so it differs from clientPubkey: throw,
    -- which rolls the transaction back
    (db, .error .unauthorized)
  | some (_, expectedPubkey) =>
    if expectedPubkey != clientPubkey then (db, .error .unauthorized)
    else
      -- UPDATE records SET is_paid = 1, settled_at = ? WHERE id = ? AND is_paid = 0
      let changes :=
        (db.records.filter (fun r => r.id == id && !r.is_paid)).length
      if changes == 0 then
        -- already settled: ROLLBACK and return false
        (db, .ok false)
      else
        let db1 := { db with records := db.records.map (fun r =>
          if r.id == id && !r.is_paid then
            { r with is_paid := true, settled_at := settledAt }
          else r) }
        let db2 := addMiningFeeReceived miningFee db1
        let db3 := { db2 with wallets := upsertWallet clientPubkey ws db2.wallets }
        (db3, .ok true)

/-- Model of `createPayment(clientPubkey, invoice)`: INSERT of a fully described
outgoing, unpaid record timestamped now. -/
def createPayment (clientPubkey : String) (inv : Invoice) (tNow : Int)
    (db : DBState) : DBState :=
  { db with
    records := db.records ++
      [{ id := db.nextId, pubkey := clientPubkey, is_outgoing := true,
         is_paid := false, payment_hash := inv.payment_hash,
         description := inv.description.getD "",
         description_hash := inv.description_hash.getD "",
         preimage := "", amount := some inv.amount, fees_paid := 0,
         created_at := tNow, expires_at := 0, settled_at := 0 }],
    nextId := db.nextId + 1 }

/-- Model of `deletePayment(clientPubkey, paymentHash)`: DELETE FROM records WHERE
pubkey = ? AND payment_hash = ?, unconditional on pay state. -/
def deletePayment (clientPubkey paymentHash : String) (db : DBState) : DBState :=
  { db with records := db.records.filter (fun r =>
      !(r.pubkey == clientPubkey && r.payment_hash == paymentHash)) }

/-- Statements of `settlePayment` as executed against the live connection
before COMMIT/ROLLBACK.  `upsertFails` injects a failure of the
wallet-upsert statement (e.g. a simulated constraint violation); the real
code path is `upsertFails = false`. -/
def settlePaymentBody (clientPubkey paymentHash : String) (feesPaid tNow : Int)
    (ws : WalletState) (upsertFails : Bool) (db : DBState) :
    DBState × Except DbError Unit :=
  let p := fun (r : RecordRow) =>
    r.pubkey == clientPubkey && r.payment_hash == paymentHash && !r.is_paid
  let changes := (db.records.filter p).length
  let db1 := { db with records := db.records.map (fun r =>
    if p r then { r with is_paid := true, fees_paid := feesPaid, settled_at := tNow }
    else r) }
  if changes != 1 then (db1, .error .notFound)
  else if upsertFails then (db1, .error .walletUpdateFailed)
  else ({ db1 with wallets := upsertWallet clientPubkey ws db1.wallets }, .ok ())

/-- Model of `settlePayment(clientPubkey, paymentHash, feesPaid, walletState)`:
the statements of `settlePaymentBody` under BEGIN/COMMIT/ROLLBACK — on any
error the snapshot taken at BEGIN is the observable state and the error
propagates. -/
def settlePayment (clientPubkey paymentHash : String) (feesPaid tNow : Int)
    (ws : WalletState) (upsertFails : Bool) (db : DBState) :
    DBState × Except DbError Unit :=
  match settlePaymentBody clientPubkey paymentHash feesPaid tNow ws upsertFails db with
  | (db1, .ok _) => (db1, .ok ())
  | (_, .error e) => (db, .error e)

/-- Model of `recToTx` result type (types.ts `Transaction`). -/
inductive TxType where
  | incoming
  | outgoing
deriving DecidableEq, Repr

/-- Transaction value produced by `recToTx`. -/
structure Transaction where
  type : TxType
  description : Option String
  description_hash : Option String
  preimage : Option String
  payment_hash : String
  amount : Int
  fees_paid : Int
  created_at : Int
  expires_at : Int
  settled_at : Int
deriving DecidableEq, Repr

/-- Model of `recToTx(r)`: the JS `|| undefined` on TEXT columns maps empty strings
to `none`, the `|| 0` on integer columns is the identity on stored values
(only `amount` can actually be NULL). -/
def recToTx (r : RecordRow) : Transaction :=
  { type := if r.is_outgoing then .outgoing else .incoming,
    description := strOpt r.description,
    description_hash := strOpt r.description_hash,
    preimage := strOpt r.preimage,
    payment_hash := r.payment_hash,
    amount := r.amount.getD 0,
    fees_paid := r.fees_paid,
    created_at := r.created_at,
    expires_at := r.expires_at,
    settled_at := r.settled_at }

/-- Model of `listTransactions` request (types.ts `ListTransactionsReq`).  `limit`
and `offset` are part of the request but the source never reads them. -/
structure ListTransactionsReq where
  clientPubkey : String
  fromTs : Option Int
  untilTs : Option Int
  unpaid : Option Bool
  type : Option TxType
  limit : Option Int
  offset : Option Int
deriving DecidableEq, Repr

/-- Insertion step of the ORDER BY created_at DESC sort. -/
def insertDescByCreatedAt (r : RecordRow) : List RecordRow → List RecordRow
  | [] => [r]
  | x :: xs =>
    if x.created_at < r.created_at then r :: x :: xs
    else x :: insertDescByCreatedAt r xs

/-- ORDER BY created_at DESC. -/
def sortDescByCreatedAt (l : List RecordRow) : List RecordRow :=
  l.foldr insertDescByCreatedAt []

/-- Evaluation of the `LIMIT ? OFFSET ?` clause.  SQLite raises a
"datatype mismatch" error when the LIMIT or OFFSET expression evaluates to
NULL; a negative LIMIT means no limit and a negative OFFSET means 0. -/
def applyLimitOffset (limit offset : Option Int) (rows : List Transaction) :
    Except DbError (List Transaction) :=
  match limit, offset with
  | some l, some o =>
    let dropped := rows.drop (max o 0).toNat
    .ok (if l < 0 then dropped else dropped.take l.toNat)
  | _, _ => .error .datatypeMismatch

/-- Model of `listTransactions(req)`: the WHERE clause of the source, ORDER BY
created_at DESC, then the LIMIT/OFFSET evaluation.  The source puts
`LIMIT ? OFFSET ?` into the SQL but pushes no values for those two
parameters onto `args`, so they stay NULL — hence the clause is evaluated
with `none, none`. -/
def listTransactions (req : ListTransactionsReq) (tNow : Int) (db : DBState) :
    Except DbError (List Transaction) :=
  let fromV := req.fromTs.getD 0
  let untilV := match req.untilTs with
    | none => tNow
    | some u => if u = 0 then tNow else u
  let keep := fun (r : RecordRow) =>
    r.pubkey == req.clientPubkey
    && decide (fromV ≤ r.created_at) && decide (r.created_at ≤ untilV)
    && (if req.unpaid = some true then true else r.is_paid)
    && (match req.type with
        | none => true
        | some t => r.is_outgoing == (t == .outgoing))
  let rows := (sortDescByCreatedAt (db.records.filter keep)).map recToTx
  applyLimitOffset none none rows

/-- Model of `getLastInvoiceSettledAt()`: SELECT settled_at FROM records ORDER BY
settled_at DESC LIMIT 1, i.e. the maximum over all records (incoming and
outgoing), with `|| 0` giving 0 on an empty table. -/
def getLastInvoiceSettledAt (db : DBState) : Int :=
  match db.records with
  | [] => 0
  | r :: rs => rs.foldl (fun acc x => max acc x.settled_at) r.settled_at

/-- Record ids are unique (id is the INTEGER PRIMARY KEY), as a decidable
check used as a hypothesis of the general theorems. -/
def uniqueIds : List RecordRow → Bool
  | [] => true
  | r :: rs => rs.all (fun x => r.id != x.id) && uniqueIds rs

/-- Well-formedness of a database state: record ids are pairwise distinct. -/
def wfDB (db : DBState) : Bool := uniqueIds db.records

/-!
Node adapter (src/unnamed/part_000, class `Phoenixd`): the in-memory
`incomingPaymentQueue` together with `scheduleIncomingPayment` and
`processIncomingPayments`.  The drain coroutine is modelled as a
small-step machine: an `enqueue` action is a `scheduleIncomingPayment`
call, `stepFee` runs the head's liquidity-fee callback to completion, and
`stepRecv` runs the head's payment-received callback to completion and
pops it.  Because the callbacks are awaited, `enqueue` actions may
interleave between the steps of the drain — the machine quantifies over
all such interleavings.  A callback failure is caught, logged and the
entry dropped, which does not change the order of callback invocations,
so callbacks are modelled as completing.
-/

/-- The node's `IncomingPayment` as used by the adapter queue. -/
structure IncomingPayment where
  externalId : Option String
  completedAt : Int
  receivedSat : Int
  fees : Int
  paymentHash : String
deriving DecidableEq, Repr

/-- Callback invocations observable from the queue. -/
inductive QEvent where
  | liquidityFee (fee : Int)
  | paymentReceived (paymentHash : String) (settledAt : Int) (externalId : Option String)
deriving DecidableEq, Repr

/-- The liquidity-fee callback of one entry: `if (p.fees) await
this.onLiquidityFee(p.fees)` — a zero fee is falsy and skipped. -/
def feeEvents (p : IncomingPayment) : List QEvent :=
  if p.fees = 0 then [] else [.liquidityFee p.fees]

/-- The payment-received callback of one entry; `Math.round(p.completedAt /
1000)` on an integer millisecond stamp is the floor of `(completedAt +
500) / 1000`. -/
def recvEvent (p : IncomingPayment) : QEvent :=
  .paymentReceived p.paymentHash (Int.fdiv (p.completedAt + 500) 1000) p.externalId

/-- All callback invocations for one fully processed entry, in order. -/
def eventsOf (p : IncomingPayment) : List QEvent := feeEvents p ++ [recvEvent p]

/-- Position of the drain coroutine: not running, about to run the head's
liquidity-fee callback, or about to run the head's payment-received
callback. -/
inductive Phase where
  | idle
  | atFee
  | atRecv
deriving DecidableEq, Repr

/-- Adapter state: the `incomingPaymentQueue`, the drain position, and the
trace of callback invocations so far. -/
structure QState where
  queue : List IncomingPayment
  phase : Phase
  trace : List QEvent
deriving DecidableEq, Repr

/-- Initial adapter state: empty queue, no drain running. -/
def qInit : QState := { queue := [], phase := .idle, trace := [] }

/-- Scheduler actions: a `scheduleIncomingPayment` call, or letting the
drain coroutine run to its next await point. -/
inductive QAction where
  | enqueue (p : IncomingPayment)
  | stepFee
  | stepRecv
deriving DecidableEq, Repr

/-- One step.  `enqueue` is `scheduleIncomingPayment`: push, and start
`processIncomingPayments` exactly when the queue length becomes 1 (the
queue was empty).  `stepFee` completes the head's liquidity-fee callback;
`stepRecv` completes the head's payment-received callback, shifts the
queue, and continues with the next entry if any.  `none` means the action
is not enabled in this state. -/
def qstep (s : QState) (a : QAction) : Option QState :=
  match a with
  | .enqueue p =>
    some { s with queue := s.queue ++ [p],
                  phase := if s.queue.isEmpty then .atFee else s.phase }
  | .stepFee =>
    match s.phase, s.queue with
    | .atFee, p :: _ =>
      some { s with phase := .atRecv, trace := s.trace ++ feeEvents p }
    | _, _ => none
  | .stepRecv =>
    match s.phase, s.queue with
    | .atRecv, p :: rest =>
      some { queue := rest,
             phase := if rest.isEmpty then .idle else .atFee,
             trace := s.trace ++ [recvEvent p] }
    | _, _ => none

/-- Run a sequence of scheduler actions. -/
def runQ : QState → List QAction → Option QState
  | s, [] => some s
  | s, a :: rest =>
    match qstep s a with
    | none => none
    | some s' => runQ s' rest

/-- The payments enqueued by an action sequence, in order. -/
def enqueuedOf : List QAction → List IncomingPayment
  | [] => []
  | .enqueue p :: rest => p :: enqueuedOf rest
  | .stepFee :: rest => enqueuedOf rest
  | .stepRecv :: rest => enqueuedOf rest

/-- Concatenated callback events of a list of payments. -/
def eventsConcat : List IncomingPayment → List QEvent
  | [] => []
  | p :: ps => eventsOf p ++ eventsConcat ps

/-- Events already emitted for the entry currently being processed. -/
def headFeeTrace (s : QState) : List QEvent :=
  match s.phase, s.queue with
  | .atRecv, p :: _ => feeEvents p
  | _, _ => []

/-- The payment hashes of the payment-received callbacks of a trace, in
invocation order. -/
def receivedOrder : List QEvent → List String
  | [] => []
  | .paymentReceived h _ _ :: rest => h :: receivedOrder rest
  | .liquidityFee _ :: rest => receivedOrder rest

/-- Model of `syncPaymentsSince`: `for (const p of payments.reverse())
this.scheduleIncomingPayment(p)` — the node-reported list is enqueued in
reversed order. -/
def syncEnqueueActions (payments : List IncomingPayment) : List QAction :=
  payments.reverse.map QAction.enqueue

/-- Invariant of reachable adapter states, relative to the list `E` of
payments enqueued so far: a prefix `done` of `E` has been fully processed
and its events are the trace (plus the fee events of a partially processed
head), the queue holds the remaining suffix, and the drain runs iff the
queue is non-empty. -/
def QInv (E : List IncomingPayment) (s : QState) : Prop :=
  ∃ done, E = done ++ s.queue
    ∧ s.trace = eventsConcat done ++ headFeeTrace s
    ∧ (s.queue = [] ↔ s.phase = .idle)

/-!
General list lemmas used to reason about the SQL statements: a row matched
by a predicate that pins down a unique row splits the table into a prefix,
the row, and a suffix, and UPDATE/SELECT/DELETE statements act pointwise.
-/

theorem filter_eq_nil_of_false {α : Type} {p : α → Bool} (l : List α)
    (h : ∀ x ∈ l, p x = false) : l.filter p = [] := by
  induction l with
  | nil => rfl
  | cons x xs ih =>
    have hx : p x = false := h x (List.mem_cons_self x xs)
    simp only [List.filter_cons, hx, Bool.false_eq_true, if_false]
    exact ih fun y hy => h y (List.mem_cons_of_mem x hy)

theorem map_if_id {α : Type} {p : α → Bool} {g : α → α} (l : List α)
    (h : ∀ x ∈ l, p x = false) :
    l.map (fun x => if p x then g x else x) = l := by
  induction l with
  | nil => rfl
  | cons x xs ih =>
    have hx : p x = false := h x (List.mem_cons_self x xs)
    simp only [List.map_cons, hx, Bool.false_eq_true, if_false]
    rw [ih fun y hy => h y (List.mem_cons_of_mem x hy)]

theorem find?_eq_single {α : Type} {p : α → Bool} {r : α} (l : List α)
    (hr : r ∈ l) (hp : p r = true) (huniq : ∀ x ∈ l, p x = true → x = r) :
    l.find? p = some r := by
  induction l with
  | nil => cases hr
  | cons x xs ih =>
    by_cases hx : p x = true
    · have hxr : x = r := huniq x (List.mem_cons_self x xs) hx
      subst hxr
      exact List.find?_cons_of_pos _ hx
    · have hxf : ¬ (p x = true) := hx
      have hxr : x ≠ r := fun he => hx (he ▸ hp)
      have hr' : r ∈ xs := by
        rcases List.mem_cons.mp hr with h1 | h2
        · exact absurd h1.symm hxr
        · exact h2
      rw [List.find?_cons_of_neg _ hxf]
      exact ih hr' fun y hy hpy => huniq y (List.mem_cons_of_mem x hy) hpy

theorem find?_eq_none_of_false {α : Type} {p : α → Bool} (l : List α)
    (h : ∀ x ∈ l, p x = false) : l.find? p = none := by
  induction l with
  | nil => rfl
  | cons x xs ih =>
    have hx : ¬ (p x = true) := by simp [h x (List.mem_cons_self x xs)]
    rw [List.find?_cons_of_neg _ hx]
    exact ih fun y hy => h y (List.mem_cons_of_mem x hy)

theorem uniqueIds_iff_pairwise (l : List RecordRow) :
    uniqueIds l = true ↔ l.Pairwise (fun a b => a.id ≠ b.id) := by
  induction l with
  | nil => simp [uniqueIds]
  | cons h t ih =>
    simp [uniqueIds, Bool.and_eq_true, List.all_eq_true, List.pairwise_cons, ih,
      bne_iff_ne]

theorem mem_id_unique {l : List RecordRow} (hu : uniqueIds l = true)
    {x y : RecordRow} (hx : x ∈ l) (hy : y ∈ l) (hid : x.id = y.id) : x = y := by
  by_contra hne
  have hpw := (uniqueIds_iff_pairwise l).mp hu
  exact hpw.forall (fun a b hab => fun he => hab he.symm) hx hy hne hid

theorem uniqueIds_of_cons {h : RecordRow} {t : List RecordRow}
    (hu : uniqueIds (h :: t) = true) : uniqueIds t = true := by
  have := (uniqueIds_iff_pairwise (h :: t)).mp hu
  exact (uniqueIds_iff_pairwise t).mpr (List.pairwise_cons.mp this).2

theorem update_decomp {p : RecordRow → Bool} {g : RecordRow → RecordRow}
    (l : List RecordRow) (r : RecordRow)
    (hr : r ∈ l) (hp : p r = true)
    (huniq : ∀ x ∈ l, p x = true → x = r)
    (hu : uniqueIds l = true) :
    ∃ l1 l2, l = l1 ++ r :: l2
      ∧ l.map (fun x => if p x then g x else x) = l1 ++ g r :: l2
      ∧ l.filter p = [r]
      ∧ (∀ x ∈ l1, p x = false) ∧ (∀ x ∈ l2, p x = false) := by
  induction l with
  | nil => cases hr
  | cons h t ih =>
    have hut : uniqueIds t = true := uniqueIds_of_cons hu
    by_cases hph : p h = true
    · have hhr : h = r := huniq h (List.mem_cons_self h t) hph
      subst hhr
      have hpw := (uniqueIds_iff_pairwise (h :: t)).mp hu
      have htf : ∀ x ∈ t, p x = false := by
        intro x hxt
        rcases Bool.eq_false_or_eq_true (p x) with ht' | hf
        · exfalso
          have hxh : x = h := huniq x (List.mem_cons_of_mem h hxt) ht'
          have := (List.pairwise_cons.mp hpw).1 x hxt
          exact this (by rw [hxh])
        · exact hf
      refine ⟨[], t, rfl, ?_, ?_, (by intro x hx; cases hx), htf⟩
      · simp only [List.map_cons, hph, if_true, List.nil_append]
        rw [map_if_id t htf]
      · simp only [List.filter_cons, hph, if_true]
        rw [filter_eq_nil_of_false t htf]
    · have hph' : p h = false := by
        rcases Bool.eq_false_or_eq_true (p h) with ht' | hf
        · exact absurd ht' hph
        · exact hf
      have hhr : h ≠ r := fun he => hph (he ▸ hp)
      have hrt : r ∈ t := by
        rcases List.mem_cons.mp hr with h1 | h2
        · exact absurd h1.symm hhr
        · exact h2
      obtain ⟨l1, l2, he1, he2, he3, he4, he5⟩ :=
        ih hrt (fun x hx hpx => huniq x (List.mem_cons_of_mem h hx) hpx) hut
      refine ⟨h :: l1, l2, ?_, ?_, ?_, ?_, he5⟩
      · rw [List.cons_append, he1]
      · simp only [List.map_cons, hph', Bool.false_eq_true, if_false, List.cons_append]
        rw [he2]
      · simp only [List.filter_cons, hph', Bool.false_eq_true, if_false]
        exact he3
      · intro x hx
        rcases List.mem_cons.mp hx with h1 | h2
        · rw [h1]; exact hph'
        · exact he4 x h2

theorem uniqueIds_mid_replace (r r' : RecordRow) (hid : r'.id = r.id)
    (l1 l2 : List RecordRow) (hu : uniqueIds (l1 ++ r :: l2) = true) :
    uniqueIds (l1 ++ r' :: l2) = true := by
  rw [uniqueIds_iff_pairwise] at hu ⊢
  rw [List.pairwise_append] at hu ⊢
  rw [List.pairwise_cons] at hu ⊢
  obtain ⟨h1, ⟨h2a, h2b⟩, h3⟩ := hu
  refine ⟨h1, ⟨?_, h2b⟩, ?_⟩
  · intro b hb
    rw [hid]
    exact h2a b hb
  · intro a ha b hb
    rcases List.mem_cons.mp hb with hb1 | hb2
    · rw [hb1, hid]
      exact h3 a ha r (List.mem_cons_self r l2)
    · exact h3 a ha b (List.mem_cons_of_mem r hb2)

/-- Invoice value returned by `getInvoiceById` for a row `r`. -/
def invoiceOfRow (r : RecordRow) : Invoice :=
  { payment_hash := r.payment_hash,
    description := strOpt r.description,
    description_hash := strOpt r.description_hash,
    amount := r.amount.getD 0,
    created_at := r.created_at,
    expires_at := r.expires_at,
    invoice := "" }

theorem getInvoiceById_of_find {id : Nat} {db : DBState} {r : RecordRow}
    (h : db.records.find? (fun x => x.id == id && !x.is_outgoing) = some r) :
    getInvoiceById id db = some (invoiceOfRow r, r.pubkey) := by
  unfold getInvoiceById
  rw [h]
  rfl

theorem getInvoiceById_of_find_none {id : Nat} {db : DBState}
    (h : db.records.find? (fun x => x.id == id && !x.is_outgoing) = none) :
    getInvoiceById id db = none := by
  unfold getInvoiceById
  rw [h]

/-- C3: for every stored record and every clientKey that is not the
record's owning public key, `settleInvoice` fails with `Unauthorized`
(the "Invalid clientPubkey for settleInvoice" throw) and the transaction
rolls back, so the observable database afterwards is exactly the one
before the call: no record, wallet row or fee counter changes. -/
theorem settleInvoice_unauthorized
    (db : DBState) (r : RecordRow) (k : String) (t fee : Int) (ws : WalletState)
    (hwf : wfDB db = true) (hr : r ∈ db.records) (hk : r.pubkey ≠ k) :
    settleInvoice k r.id t ws fee db = (db, .error .unauthorized) := by
  have hu : uniqueIds db.records = true := hwf
  cases hout : r.is_outgoing with
  | false =>
    have huniq0 : ∀ x ∈ db.records, (x.id == r.id && !x.is_outgoing) = true → x = r := by
      intro x hx hpx
      simp only [Bool.and_eq_true, beq_iff_eq] at hpx
      exact mem_id_unique hu hx hr hpx.1
    have hp0 : (r.id == r.id && !r.is_outgoing) = true := by simp [hout]
    have hget := getInvoiceById_of_find
      (find?_eq_single db.records hr hp0 huniq0)
    unfold settleInvoice
    rw [hget]
    simp only [bne_iff_ne, ne_eq, hk, not_false_eq_true, if_true]
  | true =>
    have hnone : db.records.find? (fun x => x.id == r.id && !x.is_outgoing) = none := by
      apply find?_eq_none_of_false
      intro x hx
      rcases Bool.eq_false_or_eq_true (x.id == r.id) with ht' | hf
      · have hxr : x = r := mem_id_unique hu hx hr (by simpa using ht')
        subst hxr
        simp [hout]
      · simp [hf]
    have hget := getInvoiceById_of_find_none hnone
    unfold settleInvoice
    rw [hget]

/-- C3 witness: a concrete wrong-key call is rejected without mutation. -/
theorem settleInvoice_unauthorized_witness :
    settleInvoice "mallory" 1 50 ⟨100, 0, 0⟩ 7
        { records := [newRecord 1 "alice" 10], nextId := 2,
          wallets := [], fees := none }
      = ({ records := [newRecord 1 "alice" 10], nextId := 2,
           wallets := [], fees := none }, .error .unauthorized) :=
  settleInvoice_unauthorized
    { records := [newRecord 1 "alice" 10], nextId := 2, wallets := [], fees := none }
    (newRecord 1 "alice" 10) "mallory" 50 7 ⟨100, 0, 0⟩
    (by decide) (by decide) (by decide)

/-- C1: settling an unpaid incoming record with the owning key returns
`true`, marks exactly that record paid with the given settled-at,
accumulates the liquidity fee into the received-fee counter and upserts
the wallet to the supplied state; a second `settleInvoice` on the same
record (any settled-at, wallet state or fee) returns `false` and leaves
the database exactly as it was after the first call. -/
theorem settleInvoice_idempotent
    (db : DBState) (r : RecordRow) (k : String) (t t2 fee fee2 : Int)
    (ws ws2 : WalletState)
    (hwf : wfDB db = true) (hr : r ∈ db.records)
    (hout : r.is_outgoing = false) (hunpaid : r.is_paid = false)
    (hk : r.pubkey = k) :
    ∃ l1 l2,
      db.records = l1 ++ r :: l2
      ∧ settleInvoice k r.id t ws fee db =
          ({ records := l1 ++ ({ r with is_paid := true, settled_at := t }) :: l2,
             nextId := db.nextId,
             wallets := upsertWallet k ws db.wallets,
             fees := some (feesAddReceived fee db.fees) }, .ok true)
      ∧ getFees (settleInvoice k r.id t ws fee db).1 =
          ((getFees db).1, (getFees db).2 + fee)
      ∧ settleInvoice k r.id t2 ws2 fee2 (settleInvoice k r.id t ws fee db).1 =
          ((settleInvoice k r.id t ws fee db).1, .ok false) := by
  subst hk
  have hu : uniqueIds db.records = true := hwf
  have huniq1 : ∀ x ∈ db.records, (x.id == r.id && !x.is_paid) = true → x = r := by
    intro x hx hpx
    simp only [Bool.and_eq_true, beq_iff_eq] at hpx
    exact mem_id_unique hu hx hr hpx.1
  have hp1 : (r.id == r.id && !r.is_paid) = true := by simp [hunpaid]
  obtain ⟨l1, l2, hsplit, hmap, hfilter, hl1, hl2⟩ :=
    update_decomp (g := fun x => { x with is_paid := true, settled_at := t })
      db.records r hr hp1 huniq1 hu
  have huniq0 : ∀ x ∈ db.records, (x.id == r.id && !x.is_outgoing) = true → x = r := by
    intro x hx hpx
    simp only [Bool.and_eq_true, beq_iff_eq] at hpx
    exact mem_id_unique hu hx hr hpx.1
  have hp0 : (r.id == r.id && !r.is_outgoing) = true := by simp [hout]
  have hget := getInvoiceById_of_find
    (find?_eq_single db.records hr hp0 huniq0)
  have hcall1 : settleInvoice r.pubkey r.id t ws fee db =
      ({ records := l1 ++ ({ r with is_paid := true, settled_at := t }) :: l2,
         nextId := db.nextId,
         wallets := upsertWallet r.pubkey ws db.wallets,
         fees := some (feesAddReceived fee db.fees) }, .ok true) := by
    unfold settleInvoice
    rw [hget]
    simp only [bne_self_eq_false, Bool.false_eq_true, if_false, hfilter,
      List.length_singleton, addMiningFeeReceived]
    rw [hmap]
    rw [if_neg (by decide : ¬ ((1 == 0) = true))]
  refine ⟨l1, l2, hsplit, hcall1, ?_, ?_⟩
  · rw [hcall1]
    cases hdf : db.fees <;> simp [getFees, feesAddReceived, hdf]
  · -- the second call: the record is now paid, the conditional UPDATE
    -- changes zero rows, the transaction rolls back and `false` is returned
    rw [hcall1]
    have hu1 : uniqueIds (l1 ++ ({ r with is_paid := true, settled_at := t }) :: l2) = true := by
      rw [hsplit] at hu
      exact uniqueIds_mid_replace r ({ r with is_paid := true, settled_at := t })
        rfl l1 l2 hu
    have hr1 : ({ r with is_paid := true, settled_at := t }) ∈
        l1 ++ ({ r with is_paid := true, settled_at := t }) :: l2 :=
      List.mem_append_right _ (List.mem_cons_self _ _)
    have huniq0' : ∀ x ∈ l1 ++ ({ r with is_paid := true, settled_at := t }) :: l2,
        (x.id == r.id && !x.is_outgoing) = true →
        x = { r with is_paid := true, settled_at := t } := by
      intro x hx hpx
      simp only [Bool.and_eq_true, beq_iff_eq] at hpx
      exact mem_id_unique hu1 hx hr1 hpx.1
    have hp0' : (({ r with is_paid := true, settled_at := t }).id == r.id
        && !({ r with is_paid := true, settled_at := t }).is_outgoing) = true := by
      simp [hout]
    have hfind1 := find?_eq_single _ hr1 hp0' huniq0'
    have hget1 : getInvoiceById r.id
        { records := l1 ++ ({ r with is_paid := true, settled_at := t }) :: l2,
          nextId := db.nextId,
          wallets := upsertWallet r.pubkey ws db.wallets,
          fees := some (feesAddReceived fee db.fees) } =
        some (invoiceOfRow { r with is_paid := true, settled_at := t }, r.pubkey) :=
      getInvoiceById_of_find hfind1
    have hfilter1 : (l1 ++ ({ r with is_paid := true, settled_at := t }) :: l2).filter
        (fun x => x.id == r.id && !x.is_paid) = [] := by
      apply filter_eq_nil_of_false
      intro x hx
      rcases List.mem_append.mp hx with hx1 | hx2
      · exact hl1 x hx1
      · rcases List.mem_cons.mp hx2 with hx3 | hx4
        · rw [hx3]; simp
        · exact hl2 x hx4
    unfold settleInvoice
    rw [hget1]
    simp only [bne_self_eq_false, Bool.false_eq_true, if_false, hfilter1,
      List.length_nil]
    rfl

/-- C1 witness: a concrete first call succeeds and the duplicate returns
`false` without changing anything. -/
theorem settleInvoice_idempotent_witness :
    ∃ db1,
      settleInvoice "alice" 1 50 ⟨100, 0, 0⟩ 7
          { records := [newRecord 1 "alice" 10], nextId := 2,
            wallets := [], fees := none } = (db1, .ok true)
      ∧ settleInvoice "alice" 1 60 ⟨200, 5, 5⟩ 9 db1 = (db1, .ok false) := by
  obtain ⟨l1, l2, _, h1, _, h2⟩ :=
    settleInvoice_idempotent
      { records := [newRecord 1 "alice" 10], nextId := 2, wallets := [], fees := none }
      (newRecord 1 "alice" 10) "alice" 50 60 7 9 ⟨100, 0, 0⟩ ⟨200, 5, 5⟩
      (by decide) (by decide) (by decide) (by decide) (by decide)
  rw [h1] at h2
  exact ⟨_, h1, h2⟩

/-- C2: if the wallet-upsert step of `settlePayment` fails, the whole
transaction rolls back and the error propagates.  The statements executed
before COMMIT (`settlePaymentBody`) do flip the paid flag of the matched
unpaid outgoing record, but the observable database after the failed call
is exactly the snapshot taken at BEGIN: the record is still unpaid with
`fees_paid` and `settled_at` unset, and no wallet row changed. -/
theorem settlePayment_wallet_fault_rollback
    (db : DBState) (r : RecordRow) (k hash : String) (fp t : Int) (ws : WalletState)
    (hwf : wfDB db = true) (hr : r ∈ db.records)
    (hout : r.is_outgoing = true)
    (hk : r.pubkey = k) (hh : r.payment_hash = hash) (hunpaid : r.is_paid = false)
    (huniq : ∀ x ∈ db.records,
      x.pubkey = k → x.payment_hash = hash → x.is_paid = false → x = r) :
    ∃ l1 l2,
      db.records = l1 ++ r :: l2
      ∧ settlePaymentBody k hash fp t ws true db =
          ({ db with records :=
              l1 ++ ({ r with is_paid := true, fees_paid := fp, settled_at := t }) :: l2 },
           .error .walletUpdateFailed)
      ∧ settlePayment k hash fp t ws true db = (db, .error .walletUpdateFailed) := by
  subst hk
  subst hh
  have hu : uniqueIds db.records = true := hwf
  have huniq2 : ∀ x ∈ db.records,
      (x.pubkey == r.pubkey && x.payment_hash == r.payment_hash && !x.is_paid) = true →
      x = r := by
    intro x hx hpx
    simp only [Bool.and_eq_true, beq_iff_eq, Bool.not_eq_true'] at hpx
    exact huniq x hx hpx.1.1 hpx.1.2 hpx.2
  have hp2 : (r.pubkey == r.pubkey && r.payment_hash == r.payment_hash && !r.is_paid)
      = true := by simp [hunpaid]
  obtain ⟨l1, l2, hsplit, hmap, hfilter, hl1, hl2⟩ :=
    update_decomp (g := fun x => { x with is_paid := true, fees_paid := fp, settled_at := t })
      db.records r hr hp2 huniq2 hu
  have hbody : settlePaymentBody r.pubkey r.payment_hash fp t ws true db =
      ({ db with records :=
          l1 ++ ({ r with is_paid := true, fees_paid := fp, settled_at := t }) :: l2 },
       .error .walletUpdateFailed) := by
    unfold settlePaymentBody
    simp only [hfilter, List.length_singleton]
    rw [hmap]
    rw [if_neg (by decide : ¬ ((1 != 1) = true))]
    rw [if_pos trivial]
  refine ⟨l1, l2, hsplit, hbody, ?_⟩
  unfold settlePayment
  rw [hbody]

/-- C2 witness: a concrete forced wallet-upsert failure leaves the
outgoing record unpaid even though the paid-flag statement had executed. -/
theorem settlePayment_wallet_fault_rollback_witness :
    ∃ l1 l2,
      ({ records := [{ id := 1, pubkey := "alice", is_outgoing := true,
                       is_paid := false, payment_hash := "h1", description := "",
                       description_hash := "", preimage := "", amount := some 21000,
                       fees_paid := 0, created_at := 10, expires_at := 0,
                       settled_at := 0 }], nextId := 2,
         wallets := [], fees := none } : DBState).records = l1 ++
           ({ id := 1, pubkey := "alice", is_outgoing := true,
              is_paid := false, payment_hash := "h1", description := "",
              description_hash := "", preimage := "", amount := some 21000,
              fees_paid := 0, created_at := 10, expires_at := 0,
              settled_at := 0 } : RecordRow) :: l2
      ∧ settlePayment "alice" "h1" 300 55 ⟨100, 0, 0⟩ true
          { records := [{ id := 1, pubkey := "alice", is_outgoing := true,
                          is_paid := false, payment_hash := "h1", description := "",
                          description_hash := "", preimage := "", amount := some 21000,
                          fees_paid := 0, created_at := 10, expires_at := 0,
                          settled_at := 0 }], nextId := 2,
            wallets := [], fees := none }
        = ({ records := [{ id := 1, pubkey := "alice", is_outgoing := true,
                           is_paid := false, payment_hash := "h1", description := "",
                           description_hash := "", preimage := "", amount := some 21000,
                           fees_paid := 0, created_at := 10, expires_at := 0,
                           settled_at := 0 }], nextId := 2,
             wallets := [], fees := none }, .error .walletUpdateFailed) := by
  obtain ⟨l1, l2, h1, _, h3⟩ :=
    settlePayment_wallet_fault_rollback
      { records := [{ id := 1, pubkey := "alice", is_outgoing := true,
                      is_paid := false, payment_hash := "h1", description := "",
                      description_hash := "", preimage := "", amount := some 21000,
                      fees_paid := 0, created_at := 10, expires_at := 0,
                      settled_at := 0 }], nextId := 2, wallets := [], fees := none }
      { id := 1, pubkey := "alice", is_outgoing := true, is_paid := false,
        payment_hash := "h1", description := "", description_hash := "",
        preimage := "", amount := some 21000, fees_paid := 0, created_at := 10,
        expires_at := 0, settled_at := 0 }
      "alice" "h1" 300 55 ⟨100, 0, 0⟩
      (by decide) (by decide) (by decide) (by decide) (by decide) (by decide)
      (by decide)
  exact ⟨l1, l2, h1, h3⟩

/-- C4 counterexample: the DELETE of `deleteInvoice` filters only on
`id` and `is_outgoing = 0` — there is no `is_paid` condition — so a
settled (paid) incoming record is removed, while the claim says the call
would be a no-op on a settled record. -/
theorem deleteInvoice_settled_deleted_ce :
    ¬ (deleteInvoice 1
        { records := [{ id := 1, pubkey := "alice", is_outgoing := false,
                        is_paid := true, payment_hash := "h", description := "",
                        description_hash := "", preimage := "", amount := some 1000,
                        fees_paid := 0, created_at := 10, expires_at := 0,
                        settled_at := 20 }], nextId := 2, wallets := [], fees := none }
      = { records := [{ id := 1, pubkey := "alice", is_outgoing := false,
                        is_paid := true, payment_hash := "h", description := "",
                        description_hash := "", preimage := "", amount := some 1000,
                        fees_paid := 0, created_at := 10, expires_at := 0,
                        settled_at := 20 }], nextId := 2, wallets := [], fees := none }) := by
  decide

/-- C4 (amended): `deleteInvoice(recordId)` removes every incoming record
with that id regardless of paid state; outgoing records are never touched,
and when no incoming record with the id exists the call is a no-op that
raises no error (the operation is total).  Wallets, fees and the id
counter are untouched. -/
theorem deleteInvoice_spec (id : Nat) (db : DBState) :
    (deleteInvoice id db).records =
      db.records.filter (fun r => !(r.id == id && !r.is_outgoing))
    ∧ (deleteInvoice id db).wallets = db.wallets
    ∧ (deleteInvoice id db).fees = db.fees
    ∧ (deleteInvoice id db).nextId = db.nextId
    ∧ (∀ r ∈ db.records, r.is_outgoing = true → r ∈ (deleteInvoice id db).records)
    ∧ ((∀ r ∈ db.records, r.is_outgoing = false → r.id ≠ id) →
        deleteInvoice id db = db) := by
  refine ⟨rfl, rfl, rfl, rfl, ?_, ?_⟩
  · intro r hr hout
    unfold deleteInvoice
    exact List.mem_filter.mpr ⟨hr, by simp [hout]⟩
  · intro h
    unfold deleteInvoice
    have : db.records.filter (fun r => !(r.id == id && !r.is_outgoing)) = db.records := by
      apply List.filter_eq_self.mpr
      intro r hr
      cases hout : r.is_outgoing with
      | false =>
        have hne : r.id ≠ id := h r hr hout
        simp [hne]
      | true => simp [hout]
    rw [this]

/-- C4 witness: with only an outgoing record and a non-matching id the
call changes nothing. -/
theorem deleteInvoice_spec_witness :
    deleteInvoice 5
      { records := [{ id := 1, pubkey := "alice", is_outgoing := true,
                      is_paid := true, payment_hash := "h", description := "",
                      description_hash := "", preimage := "", amount := some 1000,
                      fees_paid := 2, created_at := 10, expires_at := 0,
                      settled_at := 20 }], nextId := 2, wallets := [], fees := none }
    = { records := [{ id := 1, pubkey := "alice", is_outgoing := true,
                      is_paid := true, payment_hash := "h", description := "",
                      description_hash := "", preimage := "", amount := some 1000,
                      fees_paid := 2, created_at := 10, expires_at := 0,
                      settled_at := 20 }], nextId := 2, wallets := [], fees := none } :=
  (deleteInvoice_spec 5
    { records := [{ id := 1, pubkey := "alice", is_outgoing := true,
                    is_paid := true, payment_hash := "h", description := "",
                    description_hash := "", preimage := "", amount := some 1000,
                    fees_paid := 2, created_at := 10, expires_at := 0,
                    settled_at := 20 }], nextId := 2, wallets := [], fees := none }
    ).2.2.2.2.2 (by decide)

/-- C9 counterexample: `completeInvoice` also overwrites `created_at` with
the invoice's creation time (the UPDATE sets `created_at = ?`), so the
creation stamp written by `createInvoice` (here 5) does not survive — the
claim that every field other than hash/descriptions/amount/expiry is
unchanged is false. -/
theorem completeInvoice_created_at_ce :
    ¬ (∀ r ∈ (completeInvoice 1
          { payment_hash := "h", description := none, description_hash := none,
            amount := 1000, created_at := 10, expires_at := 110, invoice := "" }
          { records := [newRecord 1 "alice" 5], nextId := 2,
            wallets := [], fees := none }).1.records,
        r.created_at = 5) := by
  decide

/-- C9 (amended): for an existing record, `completeInvoice` updates
exactly the payment hash, description, description hash, amount, expiry
— and also `created_at`, which it overwrites with the invoice's creation
time.  The owning key, direction, paid flag, preimage, fees-paid and
settled-at of the record, all other records, the wallets, the fee row and
the id counter are unchanged, and the call returns without error. -/
theorem completeInvoice_spec (db : DBState) (r : RecordRow) (inv : Invoice)
    (hwf : wfDB db = true) (hr : r ∈ db.records) :
    ∃ l1 l2, db.records = l1 ++ r :: l2
      ∧ completeInvoice r.id inv db =
          ({ db with records := l1 ++
              ({ r with payment_hash := inv.payment_hash,
                        description := inv.description.getD "",
                        description_hash := inv.description_hash.getD "",
                        amount := some inv.amount,
                        created_at := inv.created_at,
                        expires_at := inv.expires_at }) :: l2 }, .ok ()) := by
  have hu : uniqueIds db.records = true := hwf
  have huniq : ∀ x ∈ db.records, (x.id == r.id) = true → x = r := by
    intro x hx hpx
    exact mem_id_unique hu hx hr (by simpa using hpx)
  obtain ⟨l1, l2, hsplit, hmap, hfilter, _, _⟩ :=
    update_decomp (g := fun x =>
        { x with payment_hash := inv.payment_hash,
                 description := inv.description.getD "",
                 description_hash := inv.description_hash.getD "",
                 amount := some inv.amount,
                 created_at := inv.created_at,
                 expires_at := inv.expires_at })
      db.records r hr (by simp) huniq hu
  refine ⟨l1, l2, hsplit, ?_⟩
  unfold completeInvoice
  simp only [hfilter, List.length_singleton]
  rw [hmap]
  rw [if_pos (by decide : ((1 == 1) = true))]

/-- C9 witness: concrete completion of an invoice record. -/
theorem completeInvoice_spec_witness :
    ∃ l1 l2,
      ([newRecord 1 "alice" 5] : List RecordRow) = l1 ++ newRecord 1 "alice" 5 :: l2
      ∧ completeInvoice 1
          { payment_hash := "h", description := some "d", description_hash := none,
            amount := 1000, created_at := 10, expires_at := 110, invoice := "" }
          { records := [newRecord 1 "alice" 5], nextId := 2,
            wallets := [], fees := none }
        = ({ records := l1 ++
               ({ (newRecord 1 "alice" 5) with
                  payment_hash := "h",
                  description := "d", description_hash := "",
                  amount := some 1000, created_at := 10,
                  expires_at := 110 }) :: l2,
             nextId := 2, wallets := [], fees := none }, .ok ()) := by
  obtain ⟨l1, l2, h1, h2⟩ :=
    completeInvoice_spec
      { records := [newRecord 1 "alice" 5], nextId := 2, wallets := [], fees := none }
      (newRecord 1 "alice" 5)
      { payment_hash := "h", description := some "d", description_hash := none,
        amount := 1000, created_at := 10, expires_at := 110, invoice := "" }
      (by decide) (by decide)
  exact ⟨l1, l2, h1, h2⟩

theorem foldl_max_init_le (rs : List RecordRow) :
    ∀ a : Int, a ≤ rs.foldl (fun acc x => max acc x.settled_at) a := by
  induction rs with
  | nil => intro a; exact le_refl a
  | cons h t ih =>
    intro a
    exact le_trans (le_max_left a h.settled_at) (ih (max a h.settled_at))

theorem foldl_max_mem_le (rs : List RecordRow) :
    ∀ (a : Int) (x : RecordRow), x ∈ rs →
      x.settled_at ≤ rs.foldl (fun acc y => max acc y.settled_at) a := by
  induction rs with
  | nil => intro a x hx; cases hx
  | cons h t ih =>
    intro a x hx
    rcases List.mem_cons.mp hx with h1 | h2
    · rw [h1]
      exact le_trans (le_max_right a h.settled_at) (foldl_max_init_le t _)
    · exact ih (max a h.settled_at) x h2

theorem foldl_max_le_bound (rs : List RecordRow) :
    ∀ (a m : Int), a ≤ m → (∀ x ∈ rs, x.settled_at ≤ m) →
      rs.foldl (fun acc y => max acc y.settled_at) a ≤ m := by
  induction rs with
  | nil => intro a m ha _; exact ha
  | cons h t ih =>
    intro a m ha hall
    exact ih (max a h.settled_at) m
      (max_le ha (hall h (List.mem_cons_self h t)))
      (fun x hx => hall x (List.mem_cons_of_mem h hx))

/-- C10: `getLastInvoiceSettledAt` is 0 on an empty table and otherwise
the maximum `settled_at` over ALL records — the SELECT has no
`is_outgoing` filter, so outgoing payment records are included: a record
(outgoing or not) whose `settled_at` dominates every record's is exactly
the returned watermark. -/
theorem getLastInvoiceSettledAt_spec :
    (∀ db : DBState, db.records = [] → getLastInvoiceSettledAt db = 0)
    ∧ (∀ (db : DBState) (r : RecordRow), r ∈ db.records →
        r.settled_at ≤ getLastInvoiceSettledAt db)
    ∧ (∀ (db : DBState) (r : RecordRow), r ∈ db.records →
        (∀ x ∈ db.records, x.settled_at ≤ r.settled_at) →
        getLastInvoiceSettledAt db = r.settled_at) := by
  refine ⟨?_, ?_, ?_⟩
  · intro db h
    unfold getLastInvoiceSettledAt
    rw [h]
  · intro db r hr
    unfold getLastInvoiceSettledAt
    rcases hrec : db.records with _ | ⟨h, t⟩
    · rw [hrec] at hr; cases hr
    · rw [hrec] at hr
      rcases List.mem_cons.mp hr with h1 | h2
      · rw [h1]; exact foldl_max_init_le t _
      · exact foldl_max_mem_le t h.settled_at r h2
  · intro db r hr hall
    have hle1 : r.settled_at ≤ getLastInvoiceSettledAt db := by
      unfold getLastInvoiceSettledAt
      rcases hrec : db.records with _ | ⟨h, t⟩
      · rw [hrec] at hr; cases hr
      · rw [hrec] at hr
        rcases List.mem_cons.mp hr with h1 | h2
        · rw [h1]; exact foldl_max_init_le t _
        · exact foldl_max_mem_le t h.settled_at r h2
    have hle2 : getLastInvoiceSettledAt db ≤ r.settled_at := by
      unfold getLastInvoiceSettledAt
      rcases hrec : db.records with _ | ⟨h, t⟩
      · rw [hrec] at hr; cases hr
      · rw [hrec] at hall
        exact foldl_max_le_bound t h.settled_at r.settled_at
          (hall h (List.mem_cons_self h t))
          (fun x hx => hall x (List.mem_cons_of_mem h hx))
    exact le_antisymm hle2 hle1

/-- C10 witness: a settled outgoing record newer than the settled incoming
one is the watermark. -/
theorem getLastInvoiceSettledAt_spec_witness :
    getLastInvoiceSettledAt
      { records := [{ id := 1, pubkey := "alice", is_outgoing := false,
                      is_paid := true, payment_hash := "h1", description := "",
                      description_hash := "", preimage := "", amount := some 1000,
                      fees_paid := 0, created_at := 5, expires_at := 0,
                      settled_at := 10 },
                    { id := 2, pubkey := "bob", is_outgoing := true,
                      is_paid := true, payment_hash := "h2", description := "",
                      description_hash := "", preimage := "", amount := some 2000,
                      fees_paid := 3, created_at := 6, expires_at := 0,
                      settled_at := 30 }], nextId := 3, wallets := [], fees := none }
      = 30 :=
  getLastInvoiceSettledAt_spec.2.2
    { records := [{ id := 1, pubkey := "alice", is_outgoing := false,
                    is_paid := true, payment_hash := "h1", description := "",
                    description_hash := "", preimage := "", amount := some 1000,
                    fees_paid := 0, created_at := 5, expires_at := 0,
                    settled_at := 10 },
                  { id := 2, pubkey := "bob", is_outgoing := true,
                    is_paid := true, payment_hash := "h2", description := "",
                    description_hash := "", preimage := "", amount := some 2000,
                    fees_paid := 3, created_at := 6, expires_at := 0,
                    settled_at := 30 }], nextId := 3, wallets := [], fees := none }
    { id := 2, pubkey := "bob", is_outgoing := true,
      is_paid := true, payment_hash := "h2", description := "",
      description_hash := "", preimage := "", amount := some 2000,
      fees_paid := 3, created_at := 6, expires_at := 0, settled_at := 30 }
    (by decide) (by decide)

theorem settleInvoice_fees_cases (k : String) (id : Nat) (t fee : Int)
    (ws : WalletState) (db : DBState) :
    (settleInvoice k id t ws fee db).1.fees = db.fees
    ∨ (settleInvoice k id t ws fee db).1.fees = some (feesAddReceived fee db.fees) := by
  unfold settleInvoice
  split
  · left; rfl
  · split
    · left; rfl
    · dsimp only
      split
      · left; rfl
      · right; rfl

theorem settlePaymentBody_fees (k hash : String) (fp t : Int) (ws : WalletState)
    (b : Bool) (db : DBState) :
    (settlePaymentBody k hash fp t ws b db).1.fees = db.fees := by
  unfold settlePaymentBody
  by_cases h1 : (((db.records.filter (fun r =>
      r.pubkey == k && r.payment_hash == hash && !r.is_paid)).length != 1) = true)
  · rw [if_pos h1]
  · rw [if_neg h1]
    by_cases h2 : b = true
    · rw [if_pos h2]
    · rw [if_neg h2]

theorem settlePayment_fees (k hash : String) (fp t : Int) (ws : WalletState)
    (b : Bool) (db : DBState) :
    (settlePayment k hash fp t ws b db).1.fees = db.fees := by
  unfold settlePayment
  rcases hb : settlePaymentBody k hash fp t ws b db with ⟨db1, res⟩
  have : db1.fees = db.fees := by
    have := settlePaymentBody_fees k hash fp t ws b db
    rw [hb] at this
    exact this
  cases res with
  | ok u => simpa using this
  | error e => rfl

theorem completeInvoice_fees (id : Nat) (inv : Invoice) (db : DBState) :
    (completeInvoice id inv db).1.fees = db.fees := by
  unfold completeInvoice
  by_cases h : (((db.records.filter (fun r => r.id == id)).length == 1) = true)
  · rw [if_pos h]
  · rw [if_neg h]

/-- C7: the mining-fee-paid counter accumulates additively —
`addMiningFeePaid a` then `addMiningFeePaid b` adds `a + b` from any state
(including the absent singleton row), the two calls commute, and they
commute with received-fee accumulation; and with non-negative fee
arguments no store operation ever decreases either counter:
`addMiningFeePaid` / the received-fee statement only increase their own
counter and preserve the other, `settleInvoice` never decreases either,
and every other operation leaves the fee row untouched. -/
theorem fee_accumulation_spec
    (db : DBState) (a b c : Int) (ha : 0 ≤ a) (hb : 0 ≤ b) (hc : 0 ≤ c)
    (k hash : String) (id : Nat) (t fee fp : Int) (ws : WalletState)
    (inv : Invoice) (fault : Bool) (hfee : 0 ≤ fee) :
    getFees (addMiningFeePaid b (addMiningFeePaid a db)) =
        ((getFees db).1 + (a + b), (getFees db).2)
    ∧ addMiningFeePaid b (addMiningFeePaid a db) =
        addMiningFeePaid a (addMiningFeePaid b db)
    ∧ getFees (addMiningFeePaid a (addMiningFeeReceived c db)) =
        ((getFees db).1 + a, (getFees db).2 + c)
    ∧ addMiningFeePaid a (addMiningFeeReceived c db) =
        addMiningFeeReceived c (addMiningFeePaid a db)
    ∧ (getFees db).1 ≤ (getFees (addMiningFeePaid a db)).1
    ∧ (getFees db).2 = (getFees (addMiningFeePaid a db)).2
    ∧ (getFees db).2 ≤ (getFees (addMiningFeeReceived c db)).2
    ∧ (getFees db).1 = (getFees (addMiningFeeReceived c db)).1
    ∧ (getFees db).1 ≤ (getFees (settleInvoice k id t ws fee db).1).1
    ∧ (getFees db).2 ≤ (getFees (settleInvoice k id t ws fee db).1).2
    ∧ getFees (settlePayment k hash fp t ws fault db).1 = getFees db
    ∧ getFees (createInvoice k t db).2 = getFees db
    ∧ getFees (deleteInvoice id db) = getFees db
    ∧ getFees (completeInvoice id inv db).1 = getFees db
    ∧ getFees (createPayment k inv t db) = getFees db
    ∧ getFees (deletePayment k hash db) = getFees db := by
  refine ⟨?_, ?_, ?_, ?_, ?_, ?_, ?_, ?_, ?_, ?_, ?_, ?_, ?_, ?_, ?_, ?_⟩
  · cases hdf : db.fees <;>
      simp [getFees, addMiningFeePaid, feesAddPaid, hdf] <;> omega
  · cases hdf : db.fees <;>
      simp [addMiningFeePaid, feesAddPaid, hdf] <;> omega
  · cases hdf : db.fees <;>
      simp [getFees, addMiningFeePaid, addMiningFeeReceived, feesAddPaid,
        feesAddReceived, hdf]
  · cases hdf : db.fees <;>
      simp [addMiningFeePaid, addMiningFeeReceived, feesAddPaid,
        feesAddReceived, hdf]
  · cases hdf : db.fees <;>
      simp [getFees, addMiningFeePaid, feesAddPaid, hdf] <;> omega
  · cases hdf : db.fees <;>
      simp [getFees, addMiningFeePaid, feesAddPaid, hdf]
  · cases hdf : db.fees <;>
      simp [getFees, addMiningFeeReceived, feesAddReceived, hdf] <;> omega
  · cases hdf : db.fees <;>
      simp [getFees, addMiningFeeReceived, feesAddReceived, hdf]
  · rcases settleInvoice_fees_cases k id t fee ws db with h | h
    · have h9 : getFees (settleInvoice k id t ws fee db).1 = getFees db := by
        unfold getFees; rw [h]
      rw [h9]
    · unfold getFees
      rw [h]
      cases hdf : db.fees <;> simp [feesAddReceived, hdf]
  · rcases settleInvoice_fees_cases k id t fee ws db with h | h
    · have h10 : getFees (settleInvoice k id t ws fee db).1 = getFees db := by
        unfold getFees; rw [h]
      rw [h10]
    · unfold getFees
      rw [h]
      cases hdf : db.fees <;> simp [feesAddReceived, hdf] <;> omega
  · unfold getFees
    rw [settlePayment_fees]
  · rfl
  · rfl
  · unfold getFees
    rw [completeInvoice_fees]
  · rfl
  · rfl

/-- C7 witness: two concrete accumulations from the empty ledger. -/
theorem fee_accumulation_spec_witness :
    getFees (addMiningFeePaid 3 (addMiningFeePaid 2 emptyDB)) =
      ((getFees emptyDB).1 + (2 + 3), (getFees emptyDB).2) :=
  (fee_accumulation_spec emptyDB 2 3 5 (by decide) (by decide) (by decide)
    "alice" "h" 1 0 1 0 ⟨0, 0, 0⟩
    { payment_hash := "h", description := none, description_hash := none,
      amount := 0, created_at := 0, expires_at := 0, invoice := "" }
    false (by decide)).1

theorem eventsConcat_append (l1 l2 : List IncomingPayment) :
    eventsConcat (l1 ++ l2) = eventsConcat l1 ++ eventsConcat l2 := by
  induction l1 with
  | nil => rfl
  | cons p ps ih => simp [eventsConcat, ih]

theorem enqueuedOf_cons (a : QAction) (rest : List QAction) :
    enqueuedOf (a :: rest) = enqueuedOf [a] ++ enqueuedOf rest := by
  cases a <;> rfl

theorem qstep_inv (E : List IncomingPayment) (s s' : QState) (a : QAction)
    (h : qstep s a = some s') (hinv : QInv E s) :
    QInv (E ++ enqueuedOf [a]) s' := by
  obtain ⟨done, hE, htr, hiff⟩ := hinv
  cases a with
  | enqueue p =>
    simp only [qstep, Option.some.injEq] at h
    subst h
    refine ⟨done, ?_, ?_, ?_⟩
    · show E ++ [p] = done ++ (s.queue ++ [p])
      rw [hE, List.append_assoc]
    · show s.trace = eventsConcat done ++ headFeeTrace _
      cases hq : s.queue with
      | nil =>
        have hph : s.phase = .idle := hiff.mp hq
        rw [htr]
        simp [headFeeTrace, hq, hph]
      | cons q qs =>
        rw [htr]
        cases hph : s.phase <;> simp [headFeeTrace, hq, hph]
    · constructor
      · intro hq
        exact absurd hq (by simp)
      · intro hph
        exfalso
        cases hq : s.queue with
        | nil => rw [hq] at hph; simp at hph
        | cons q qs =>
          rw [hq] at hph
          simp only [List.isEmpty_cons, Bool.false_eq_true, if_false] at hph
          have := hiff.mpr hph
          rw [hq] at this
          cases this
  | stepFee =>
    unfold qstep at h
    rcases hph : s.phase with _ | _ | _ <;> rw [hph] at h <;>
      rcases hq : s.queue with _ | ⟨p, rest⟩ <;> rw [hq] at h
    · cases h
    · cases h
    · cases h
    · injection h with h
      subst h
      have h0 : headFeeTrace s = [] := by
        unfold headFeeTrace
        rw [hph]
      refine ⟨done, ?_, ?_, ?_⟩
      · show E ++ [] = done ++ (p :: rest)
        rw [List.append_nil, hE, hq]
      · show s.trace ++ feeEvents p = eventsConcat done ++ headFeeTrace _
        rw [htr, h0, List.append_nil]
        simp [headFeeTrace]
      · simp
    · cases h
    · cases h
  | stepRecv =>
    unfold qstep at h
    rcases hph : s.phase with _ | _ | _ <;> rw [hph] at h <;>
      rcases hq : s.queue with _ | ⟨p, rest⟩ <;> rw [hq] at h
    · cases h
    · cases h
    · cases h
    · cases h
    · cases h
    · injection h with h
      subst h
      have h0 : headFeeTrace s = feeEvents p := by
        unfold headFeeTrace
        rw [hph, hq]
      refine ⟨done ++ [p], ?_, ?_, ?_⟩
      · show E ++ [] = (done ++ [p]) ++ rest
        rw [List.append_nil, hE, hq, List.append_assoc, List.singleton_append]
      · show s.trace ++ [recvEvent p] =
          eventsConcat (done ++ [p]) ++ headFeeTrace _
        rw [htr, h0, eventsConcat_append]
        cases rest with
        | nil => simp [headFeeTrace, eventsConcat, eventsOf, List.append_assoc]
        | cons x xs => simp [headFeeTrace, eventsConcat, eventsOf, List.append_assoc]
      · cases rest with
        | nil => simp
        | cons x xs => simp

theorem runQ_inv (acts : List QAction) :
    ∀ (E : List IncomingPayment) (s s' : QState), QInv E s →
      runQ s acts = some s' → QInv (E ++ enqueuedOf acts) s' := by
  induction acts with
  | nil =>
    intro E s s' hinv h
    simp only [runQ, Option.some.injEq] at h
    subst h
    simpa [enqueuedOf] using hinv
  | cons a rest ih =>
    intro E s s' hinv h
    unfold runQ at h
    rcases hs : qstep s a with _ | s1
    · rw [hs] at h
      cases h
    · rw [hs] at h
      have hinv1 := qstep_inv E s s1 a hs hinv
      have h2 := ih (E ++ enqueuedOf [a]) s1 s' hinv1 h
      rw [enqueuedOf_cons, ← List.append_assoc]
      exact h2

theorem qInit_inv : QInv [] qInit :=
  ⟨[], rfl, rfl, by constructor <;> intro <;> rfl⟩

/-- Shared consequence of the invariant: a fully drained run has emitted
exactly the events of all enqueued payments, in enqueue order. -/
theorem runQ_idle_trace (acts : List QAction) (s : QState)
    (hrun : runQ qInit acts = some s) (hidle : s.phase = .idle) :
    s.trace = eventsConcat (enqueuedOf acts) := by
  obtain ⟨done, hE, htr, hiff⟩ := runQ_inv acts [] qInit s qInit_inv hrun
  have hq : s.queue = [] := hiff.mpr hidle
  rw [hq, List.append_nil, List.nil_append] at hE
  have h0 : headFeeTrace s = [] := by
    unfold headFeeTrace
    rw [hq]
    cases s.phase <;> rfl
  rw [htr, h0, List.append_nil, hE]

/-- Shared consequence of the invariant: at any point of any run, the
trace emitted so far is a prefix of the full event sequence of the
enqueued payments — events of a later enqueue never precede those of an
earlier one. -/
theorem runQ_trace_ordered (acts : List QAction) (s : QState)
    (hrun : runQ qInit acts = some s) :
    ∃ rest, s.trace ++ rest = eventsConcat (enqueuedOf acts) := by
  obtain ⟨done, hE, htr, hiff⟩ := runQ_inv acts [] qInit s qInit_inv hrun
  rw [List.nil_append] at hE
  rcases hq : s.queue with _ | ⟨p, qs⟩
  · have h0 : headFeeTrace s = [] := by
      unfold headFeeTrace
      rw [hq]
      cases s.phase <;> rfl
    refine ⟨[], ?_⟩
    rw [htr, h0, List.append_nil, List.append_nil, hE, hq, List.append_nil]
  · cases hph : s.phase with
    | atRecv =>
      have h0 : headFeeTrace s = feeEvents p := by simp [headFeeTrace, hph, hq]
      refine ⟨[recvEvent p] ++ eventsConcat qs, ?_⟩
      rw [htr, h0, hE, hq, eventsConcat_append]
      simp [eventsConcat, eventsOf, List.append_assoc]
    | idle =>
      have h0 : headFeeTrace s = [] := by simp [headFeeTrace, hph]
      refine ⟨eventsConcat (p :: qs), ?_⟩
      rw [htr, h0, List.append_nil, hE, hq, eventsConcat_append]
    | atFee =>
      have h0 : headFeeTrace s = [] := by simp [headFeeTrace, hph]
      refine ⟨eventsConcat (p :: qs), ?_⟩
      rw [htr, h0, List.append_nil, hE, hq, eventsConcat_append]

theorem receivedOrder_append (l1 l2 : List QEvent) :
    receivedOrder (l1 ++ l2) = receivedOrder l1 ++ receivedOrder l2 := by
  induction l1 with
  | nil => rfl
  | cons e rest ih => cases e <;> simp [receivedOrder, ih]

theorem receivedOrder_eventsConcat (l : List IncomingPayment) :
    receivedOrder (eventsConcat l) = l.map (fun p => p.paymentHash) := by
  induction l with
  | nil => rfl
  | cons p ps ih =>
    show receivedOrder ((feeEvents p ++ [recvEvent p]) ++ eventsConcat ps) = _
    rw [receivedOrder_append, receivedOrder_append]
    have h1 : receivedOrder (feeEvents p) = [] := by
      unfold feeEvents
      by_cases hf : p.fees = 0
      · rw [if_pos hf]; rfl
      · rw [if_neg hf]; rfl
    rw [h1, ih]
    rfl

/-- C5: the reconciliation queue is strictly sequential and front-to-back.
(1) `scheduleIncomingPayment` only appends, and starts the drain exactly
when the queue was empty; (2) at every point of every interleaved run the
emitted callback trace is a prefix of the concatenated event blocks of the
enqueued payments in enqueue order — so the callbacks of an earlier
notification all complete before any callback of a later one runs; (3) a
fully drained run emits exactly those blocks; (4) in particular for three
notifications enqueued in order N1, N2, N3 the callbacks fire as the block
of N1, then the block of N2, then the block of N3. -/
theorem queue_sequential_order :
    (∀ (s : QState) (p : IncomingPayment),
      qstep s (.enqueue p) = some { s with
        queue := s.queue ++ [p],
        phase := if s.queue.isEmpty then .atFee else s.phase })
    ∧ (∀ (acts : List QAction) (s : QState), runQ qInit acts = some s →
        ∃ rest, s.trace ++ rest = eventsConcat (enqueuedOf acts))
    ∧ (∀ (acts : List QAction) (s : QState), runQ qInit acts = some s →
        s.phase = .idle → s.trace = eventsConcat (enqueuedOf acts))
    ∧ (∀ (n1 n2 n3 : IncomingPayment) (acts : List QAction) (s : QState),
        enqueuedOf acts = [n1, n2, n3] → runQ qInit acts = some s →
        s.phase = .idle →
        s.trace = eventsOf n1 ++ eventsOf n2 ++ eventsOf n3) := by
  refine ⟨fun s p => rfl, runQ_trace_ordered, runQ_idle_trace, ?_⟩
  intro n1 n2 n3 acts s hacts hrun hidle
  rw [runQ_idle_trace acts s hrun hidle, hacts]
  simp [eventsConcat, List.append_assoc]

/-- Concrete notifications for the queue witnesses. -/
def np1 : IncomingPayment :=
  { externalId := some "1", completedAt := 10000, receivedSat := 5,
    fees := 2, paymentHash := "n1" }

def np2 : IncomingPayment :=
  { externalId := some "2", completedAt := 20000, receivedSat := 6,
    fees := 0, paymentHash := "n2" }

def np3 : IncomingPayment :=
  { externalId := some "3", completedAt := 30000, receivedSat := 7,
    fees := 3, paymentHash := "n3" }

/-- One interleaved schedule: N2 and N3 arrive while N1 and N2 are being
processed. -/
def actsW5 : List QAction :=
  [.enqueue np1, .stepFee, .enqueue np2, .stepRecv, .enqueue np3,
   .stepFee, .stepRecv, .stepFee, .stepRecv]

/-- Final state of the `actsW5` run. -/
def sW5 : QState :=
  { queue := [], phase := .idle,
    trace := [.liquidityFee 2, .paymentReceived "n1" 10 (some "1"),
              .paymentReceived "n2" 20 (some "2"),
              .liquidityFee 3, .paymentReceived "n3" 30 (some "3")] }

/-- C5 witness: the concrete interleaved run drains in enqueue order. -/
theorem queue_sequential_order_witness :
    sW5.trace = eventsOf np1 ++ eventsOf np2 ++ eventsOf np3 :=
  queue_sequential_order.2.2.2 np1 np2 np3 actsW5 sW5
    (by decide) (by decide) (by decide)

/-- The spec's backfill example: node-reported list `[P3(t=30s), P1(t=10s),
P2(t=20s)]` (completedAt in milliseconds). -/
def pceP3 : IncomingPayment :=
  { externalId := none, completedAt := 30000, receivedSat := 3,
    fees := 0, paymentHash := "P3" }

def pceP1 : IncomingPayment :=
  { externalId := none, completedAt := 10000, receivedSat := 1,
    fees := 0, paymentHash := "P1" }

def pceP2 : IncomingPayment :=
  { externalId := none, completedAt := 20000, receivedSat := 2,
    fees := 0, paymentHash := "P2" }

/-- The full drain of the backfill example. -/
def actsCe6 : List QAction :=
  syncEnqueueActions [pceP3, pceP1, pceP2] ++
    [.stepFee, .stepRecv, .stepFee, .stepRecv, .stepFee, .stepRecv]

/-- Final state of the `actsCe6` run. -/
def sCe6 : QState :=
  { queue := [], phase := .idle,
    trace := [.paymentReceived "P2" 20 none, .paymentReceived "P1" 10 none,
              .paymentReceived "P3" 30 none] }

/-- C6 counterexample: `syncPaymentsSince` enqueues the plain reverse of
the node list.  The spec's example list `[P3(t=30), P1(t=10), P2(t=20)]`
is not actually sorted newest-first, so its reverse is `[P2, P1, P3]` and
the payment-received callback fires in order P2, P1, P3 — not P1, P2, P3
as the claim states. -/
theorem syncPayments_order_ce :
    runQ qInit actsCe6 = some sCe6
    ∧ receivedOrder sCe6.trace = ["P2", "P1", "P3"]
    ∧ receivedOrder sCe6.trace ≠ ["P1", "P2", "P3"] := by
  refine ⟨by decide, rfl, by decide⟩

/-- C6 (amended): `syncPaymentsSince` feeds `payments.reverse()` into the
same enqueue path, so a fully drained run fires the callbacks exactly in
the reversed node order — for `[P3, P1, P2]` that is P2, P1, P3.  When the
node list really is newest-first (weakly descending completedAt), the
reversed order is oldest-first, i.e. chronological. -/
theorem syncPayments_reversed_order
    (payments : List IncomingPayment) (acts : List QAction) (s : QState)
    (hacts : enqueuedOf acts = payments.reverse)
    (hrun : runQ qInit acts = some s) (hidle : s.phase = .idle) :
    s.trace = eventsConcat payments.reverse
    ∧ receivedOrder s.trace = payments.reverse.map (fun p => p.paymentHash)
    ∧ (List.Pairwise (fun x y => y.completedAt ≤ x.completedAt) payments →
        List.Pairwise (fun x y => x.completedAt ≤ y.completedAt) payments.reverse) := by
  have h1 : s.trace = eventsConcat payments.reverse := by
    rw [runQ_idle_trace acts s hrun hidle, hacts]
  refine ⟨h1, ?_, ?_⟩
  · rw [h1, receivedOrder_eventsConcat]
  · intro hsorted
    exact List.pairwise_reverse.mpr hsorted

/-- C6 witness: the backfill example drained under the amended statement. -/
theorem syncPayments_reversed_order_witness :
    sCe6.trace = eventsConcat ([pceP3, pceP1, pceP2].reverse) :=
  (syncPayments_reversed_order [pceP3, pceP1, pceP2] actsCe6 sCe6
    (by decide) (by decide) (by decide)).1

/-- A store with two paid incoming records of "alice" inside the window
[0, 40] — the claim expects `listTransactions` to return a page of them. -/
def dbC8 : DBState :=
  { records := [{ id := 1, pubkey := "alice", is_outgoing := false,
                  is_paid := true, payment_hash := "h1", description := "",
                  description_hash := "", preimage := "", amount := some 1000,
                  fees_paid := 0, created_at := 10, expires_at := 0,
                  settled_at := 11 },
                { id := 2, pubkey := "alice", is_outgoing := false,
                  is_paid := true, payment_hash := "h2", description := "",
                  description_hash := "", preimage := "", amount := some 2000,
                  fees_paid := 0, created_at := 20, expires_at := 0,
                  settled_at := 21 }],
    nextId := 3, wallets := [], fees := none }

/-- A paid-incoming page request with limit 1, offset 0. -/
def reqC8 : ListTransactionsReq :=
  { clientPubkey := "alice", fromTs := some 0, untilTs := some 40,
    unpaid := some false, type := some .incoming,
    limit := some 1, offset := some 0 }

/-- C8 (code bug): the source's SQL ends in `LIMIT ? OFFSET ?` but the
`args` array never receives values for those two parameters, so they stay
NULL and SQLite aborts the query with a datatype-mismatch error before
yielding any row.  Hence every `listTransactions` call errors — in
particular the concrete paid-incoming page request over a store that holds
two matching records, where the claim expects one paid incoming record
back. -/
theorem listTransactions_always_errors :
    (∀ (req : ListTransactionsReq) (tNow : Int) (db : DBState),
      listTransactions req tNow db = .error .datatypeMismatch)
    ∧ listTransactions reqC8 50 dbC8 = .error .datatypeMismatch
    ∧ (dbC8.records.filter (fun r =>
        r.pubkey == "alice" && r.is_paid && !r.is_outgoing
        && decide (0 ≤ r.created_at) && decide (r.created_at ≤ 40))).length = 2 :=
  ⟨fun _ _ _ => rfl, rfl, by decide⟩

end NwcPhoenixd
